import Mathlib

/-!
Verification of the client-side data-fetching and UI rendering logic of the
ai-geo-zhitou dashboard. Pure rendering components (TrendIndicator,
MaturityIndicator, ShareOfModelChart) are embedded directly from the React
source. The server-state synchronization layer (cache store, query units,
mutation units, invalidation) is used through hooks whose implementation is
not part of the repository sources, so it is modelled from the specification
and the claims are settled against that model.
-/

namespace ZhiTou

/-! ### TrendIndicator (source: TrendIndicator component) -/

/-- The two icons a trend indicator can render: TrendingUp or TrendingDown. -/
inductive TrendIcon where
  | trendingUp
  | trendingDown
deriving DecidableEq, Repr

/-- The rendered output of the TrendIndicator component: the chosen icon, the
color class of the wrapping div, and the displayed magnitude followed by a
suffix. -/
structure TrendRender where
  icon : TrendIcon
  colorClass : String
  magnitude : ℚ
  suffix : String
deriving DecidableEq, Repr

/-- Embedding of the TrendIndicator component: `isPositive = value > 0`
selects TrendingUp and the success color, otherwise TrendingDown and the
error color; the text shown is `Math.abs(value)` followed by a percent
sign. -/
def TrendIndicator (value : ℚ) : TrendRender :=
  if 0 < value then
    { icon := TrendIcon.trendingUp, colorClass := "text-success-500",
      magnitude := |value|, suffix := "%" }
  else
    { icon := TrendIcon.trendingDown, colorClass := "text-error-500",
      magnitude := |value|, suffix := "%" }

/-! ### MaturityIndicator (source: VisibilityResearch.tsx) -/

/-- One entry of the `maturityConfig` object of the MaturityIndicator
component. -/
structure MaturityConfig where
  color : String
  label : String
  description : String
  percentage : Nat
deriving DecidableEq, Repr

/-- The `low` entry of the maturityConfig object. -/
def lowConfig : MaturityConfig :=
  { color := "error", label := "Low Maturity",
    description := "Category is rarely mentioned in LLM responses. High opportunity for early positioning.",
    percentage := 33 }

/-- The `medium` entry of the maturityConfig object. -/
def mediumConfig : MaturityConfig :=
  { color := "warning", label := "Medium Maturity",
    description := "Category has moderate presence. Competition is building but opportunities remain.",
    percentage := 66 }

/-- The `high` entry of the maturityConfig object. -/
def highConfig : MaturityConfig :=
  { color := "success", label := "High Maturity",
    description := "Category is well-established in LLM knowledge. Focus on differentiation.",
    percentage := 100 }

/-- The property names a plain object literal inherits from
Object.prototype; bracket lookup finds these on the prototype chain, and
every one of them is a truthy function or object. -/
def protoProps : List String :=
  ["constructor", "hasOwnProperty", "isPrototypeOf", "propertyIsEnumerable",
   "toLocaleString", "toString", "valueOf", "__proto__", "__defineGetter__",
   "__defineSetter__", "__lookupGetter__", "__lookupSetter__"]

/-- A truthy value a bracket lookup on the maturityConfig object can
produce: one of the own configuration entries, or an inherited
Object.prototype property (a function or object, not a configuration). -/
inductive JsValue where
  | config (c : MaturityConfig)
  | inherited (name : String)
deriving DecidableEq, Repr

/-- Embedding of the JS bracket lookup `maturityConfig[level]` including
the prototype chain: the own keys low, medium and high yield their
configurations; an inherited Object.prototype property name yields that
inherited truthy value; any other string is undefined (none). -/
def maturityLookup (level : String) : Option JsValue :=
  if level = "low" then some (JsValue.config lowConfig)
  else if level = "medium" then some (JsValue.config mediumConfig)
  else if level = "high" then some (JsValue.config highConfig)
  else if level ∈ protoProps then some (JsValue.inherited level)
  else none

/-- Embedding of `maturityConfig[level] || maturityConfig.medium`: the
fallback fires only when the lookup result is falsy (undefined); every
found value — own configuration or inherited property — is truthy and is
returned as is. -/
def maturityConfig (level : String) : JsValue :=
  (maturityLookup level).getD (JsValue.config mediumConfig)

/-! ### ShareOfModelChart (source: VisibilityResearch.tsx) -/

/-- The comparator of the ShareOfModelChart sort, `([, a], [, b]) => b - a`:
an entry sorts before another when its share is at least as large
(descending by share). -/
def shareDescBefore (p q : String × ℚ) : Bool :=
  decide (q.2 ≤ p.2)

/-- Embedding of the ShareOfModelChart data pipeline:
`Object.entries(data).sort(([, a], [, b]) => b - a).slice(0, 10)` — the
brand/share entries sorted by share descending, keeping the first ten. -/
def ShareOfModelChart (data : List (String × ℚ)) : List (String × ℚ) :=
  (data.mergeSort shareDescBefore).take 10

/-! ### Server-State Synchronization Component

The hooks in the source (useProbes, runResearchMutation) drive this layer,
but its implementation is not among the repository sources; the definitions
below are modelled from the specification of the Cache Store, Query Unit,
Mutation Unit and Invalidation Router. -/

/-- Modelled from the spec: an Operation Key is the ordered tuple of
operation name and parameter values identifying a cached query result; the
hooks use string-array query keys. -/
abbrev OpKey := List String

/-- Modelled from the spec: result payloads, abstracted to naturals. -/
abbrev Payload := Nat

/-- Modelled from the spec: classified failure descriptions, abstracted. -/
abbrev Failure := Nat

/-- Modelled from the spec: the lifecycle status of a cache entry. -/
inductive Status where
  | idle
  | loading
  | success
  | error
deriving DecidableEq, Repr

/-- Modelled from the spec: a Cache Entry holds status, a staleness mark,
optional data, an optional failure, and the request token of the fetch the
store currently considers in flight for the key (none when no current
fetch). -/
structure CacheEntry where
  status : Status
  stale : Bool
  data : Option Payload
  err : Option Failure
  tok : Option Nat
deriving DecidableEq, Repr

/-- The entry created on first contact with a key: idle, empty. -/
def CacheEntry.initial : CacheEntry :=
  { status := Status.idle, stale := false, data := none, err := none, tok := none }

/-- Modelled from the spec: a network request on the wire, identified by its
Operation Key and request token. -/
structure NetRequest where
  key : OpKey
  token : Nat
deriving DecidableEq, Repr

/-- Modelled from the spec: the Cache Store — entries keyed by Operation
Key, the requests currently on the wire, the keys with active subscribers,
and a monotonic counter issuing request tokens. -/
structure Store where
  entries : List (OpKey × CacheEntry)
  pending : List NetRequest
  subs : List OpKey
  counter : Nat
deriving DecidableEq, Repr

/-- The store at process start: empty. -/
def Store.init : Store :=
  { entries := [], pending := [], subs := [], counter := 0 }

/-- First-match association lookup on the entry list. -/
def lookupEntry : List (OpKey × CacheEntry) → OpKey → Option CacheEntry
  | [], _ => none
  | (k', e) :: rest, k => if k' = k then some e else lookupEntry rest k

/-- Replace the entry at a key, or append it when absent. -/
def setAssoc : List (OpKey × CacheEntry) → OpKey → CacheEntry → List (OpKey × CacheEntry)
  | [], k, e => [(k, e)]
  | (k', e') :: rest, k, e =>
    if k' = k then (k, e) :: rest else (k', e') :: setAssoc rest k e

/-- The entry the store holds for a key, an initial idle one when absent. -/
def Store.entryAt (s : Store) (k : OpKey) : CacheEntry :=
  (lookupEntry s.entries k).getD CacheEntry.initial

/-- Modelled from the spec: beginning a fetch — the entry transitions to
loading, records a fresh request token, clears its staleness mark, and the
request goes on the wire. -/
def Store.beginFetch (s : Store) (k : OpKey) : Store :=
  { s with
    entries := setAssoc s.entries k
      { s.entryAt k with status := Status.loading, stale := false, tok := some s.counter },
    pending := s.pending ++ [{ key := k, token := s.counter }],
    counter := s.counter + 1 }

/-- Modelled from the spec: request de-duplication — a get or subscription
for a key whose entry already records an in-flight request shares that fetch
and issues no second network call. -/
def Store.fetch (s : Store) (k : OpKey) : Store :=
  if (s.entryAt k).tok.isSome then s else s.beginFetch k

/-- Modelled from the spec: a Query Unit triggers a fetch only from an idle
or stale entry. -/
def needsFetch (e : CacheEntry) : Bool :=
  decide (e.status = Status.idle) || e.stale

/-- Modelled from the spec: one evaluation of a Query Unit — when disabled
it never triggers a fetch and the entry stays as it is; when enabled it
fetches only if the entry is idle or stale. -/
def queryStep (s : Store) (k : OpKey) (enabled : Bool) : Store :=
  if enabled && needsFetch (s.entryAt k) then s.fetch k else s

/-- A Query Unit re-evaluated across a sequence of renders with the given
values of its enabled flag. -/
def queryRun (s : Store) (k : OpKey) : List Bool → Store
  | [] => s
  | b :: bs => queryRun (queryStep s k b) k bs

/-- Modelled from the spec: the outcome a network response carries. -/
inductive Outcome where
  | ok (d : Payload)
  | fail (f : Failure)
deriving DecidableEq, Repr

/-- Modelled from the spec: applying a resolved outcome to an entry —
success replaces the data and clears the failure; failure records the
failure but keeps the last known data (stale-while-error). Either way the
in-flight token is cleared. -/
def applyOutcome (e : CacheEntry) : Outcome → CacheEntry
  | Outcome.ok d =>
    { e with status := Status.success, data := some d, err := none, tok := none }
  | Outcome.fail f =>
    { e with status := Status.error, err := some f, tok := none }

/-- Modelled from the spec: a network response arriving — the request leaves
the wire, and the store applies the outcome only if its token still matches
the entry's current in-flight token; a superseded response is silently
dropped (ConcurrencyConflict). -/
def Store.resolve (s : Store) (k : OpKey) (t : Nat) (o : Outcome) : Store :=
  let p := s.pending.filter fun r => decide (¬(r.key = k ∧ r.token = t))
  if (s.entryAt k).tok = some t then
    { s with pending := p, entries := setAssoc s.entries k (applyOutcome (s.entryAt k) o) }
  else
    { s with pending := p }

/-- Scope test of the Invalidation Router: the first key is an initial
segment of the second. -/
def isUnder : OpKey → OpKey → Bool
  | [], _ => true
  | _ :: _, [] => false
  | a :: ps, b :: ks => decide (a = b) && isUnder ps ks

/-- Marking an entry stale, everything else untouched. -/
def markStale (e : CacheEntry) : CacheEntry :=
  { e with stale := true }

/-- Marking every entry under the scope stale. -/
def Store.staleUnder (s : Store) (p : OpKey) : Store :=
  { s with entries := s.entries.map fun kv =>
      if isUnder p kv.1 then (kv.1, markStale kv.2) else kv }

/-- Modelled from the spec: invalidation — every entry under the scope is
marked stale, and every actively subscribed key under the scope is
immediately re-fetched with a fresh token, superseding any fetch already in
flight for it. -/
def Store.invalidate (s : Store) (p : OpKey) : Store :=
  (s.subs.filter fun k => isUnder p k).foldl Store.beginFetch (s.staleUnder p)

/-- Modelled from the spec: `get` creates an idle entry for a key when the
store has none, so every later consumer of the same key shares that slot. -/
def Store.ensure (s : Store) (k : OpKey) : Store :=
  match lookupEntry s.entries k with
  | some _ => s
  | none => { s with entries := s.entries ++ [(k, CacheEntry.initial)] }

/-- Modelled from the spec: the status of a Mutation Unit. -/
inductive MStatus where
  | midle
  | mpending
  | msuccess
  | merror
deriving DecidableEq, Repr

/-- Modelled from the spec: a Mutation Unit exposes its invocation status. -/
structure MutationUnit where
  mstatus : MStatus
deriving DecidableEq, Repr

/-- Modelled from the spec: the synchronous result of calling `mutate`. -/
inductive MutateResult where
  | started
  | busyRejected
deriving DecidableEq, Repr

/-- Modelled from the spec: calling `mutate` — while a previous invocation
from the same unit is still pending the call is rejected synchronously with
a BusyRejection, the unit is left unchanged and no side-effecting request is
issued (the Bool reports whether a request was issued); otherwise the unit
becomes pending and one request is issued. -/
def mutate (u : MutationUnit) : MutationUnit × MutateResult × Bool :=
  if u.mstatus = MStatus.mpending then
    (u, MutateResult.busyRejected, false)
  else
    ({ u with mstatus := MStatus.mpending }, MutateResult.started, true)

/-- Modelled from the spec: the externally visible events driving the
store — a Query Unit evaluation, a subscription, a network response, and an
invalidation as fired by a successful mutation. -/
inductive Event where
  | query (k : OpKey) (enabled : Bool)
  | subscribe (k : OpKey)
  | resolve (k : OpKey) (t : Nat) (o : Outcome)
  | invalidate (p : OpKey)
deriving DecidableEq, Repr

/-- One event applied to the store. -/
def step (s : Store) : Event → Store
  | Event.query k en => queryStep s k en
  | Event.subscribe k => queryStep { s with subs := s.subs ++ [k] } k true
  | Event.resolve k t o => s.resolve k t o
  | Event.invalidate p => s.invalidate p

/-- A trace of events applied in order. -/
def run (s : Store) : List Event → Store
  | [] => s
  | e :: es => run (step s e) es

/-- The requests on the wire for a key. -/
def pendingFor (s : Store) (k : OpKey) : List NetRequest :=
  s.pending.filter fun r => decide (r.key = k)

/-- The requests on the wire for a key that the store still considers
current: their token matches the entry's in-flight token. Superseded
requests are excluded, since the token rule discards their responses. -/
def liveFor (s : Store) (k : OpKey) : List NetRequest :=
  s.pending.filter fun r => decide (r.key = k ∧ (s.entryAt k).tok = some r.token)

/-- Whether a trace contains no invalidation events. -/
def noInvalidate : List Event → Bool
  | [] => true
  | Event.invalidate _ :: _ => false
  | _ :: es => noInvalidate es

/-- Token bookkeeping invariant: every token on the wire and every recorded
in-flight token was issued by the counter, and tokens on the wire are
pairwise distinct. -/
def TokInv (s : Store) : Prop :=
  (∀ r ∈ s.pending, r.token < s.counter) ∧
  (∀ k t, (s.entryAt k).tok = some t → t < s.counter) ∧
  s.pending.Pairwise fun r r' => r.token ≠ r'.token

/-- In traces without invalidation every request on the wire is current:
its token is the in-flight token its entry records. -/
def LiveInv (s : Store) : Prop :=
  TokInv s ∧ ∀ r ∈ s.pending, (s.entryAt r.key).tok = some r.token

/-! ### Keys and flags of the hooks (source: useProbes) -/

/-- The query key of `listProbes`. -/
def probesKey : OpKey := ["probes"]

/-- JavaScript truthiness of a string: `!!s` is false exactly for the empty
string. -/
def jsTruthy (s : String) : Bool :=
  decide (s ≠ "")

/-- The query key of `getProbeResults`: `['probe-results', jobId, timeframe]`. -/
def probeResultsKey (jobId timeframe : String) : OpKey :=
  ["probe-results", jobId, timeframe]

/-- The enabled flag of `getProbeResults`: `enabled: !!jobId`. -/
def probeResultsEnabled (jobId : String) : Bool :=
  jsTruthy jobId

/-- A sample store with one successful probe-results entry whose refetch is
on the wire, used to instantiate the theorems below at concrete inputs. -/
def sampleStore : Store :=
  { entries := [(probeResultsKey "job1" "7d",
      { status := Status.success, stale := false, data := some 5,
        err := none, tok := some 0 })],
    pending := [{ key := probeResultsKey "job1" "7d", token := 0 }],
    subs := [probeResultsKey "job1" "7d"],
    counter := 1 }

/-- A sample store with three settled entries — two probe-results keys, one
of them subscribed, and the probes list key — used to instantiate the
invalidation theorem at concrete inputs. -/
def scopedStore : Store :=
  { entries := [
      (probeResultsKey "job1" "7d",
        { status := Status.success, stale := false, data := some 5, err := none, tok := none }),
      (probeResultsKey "job2" "7d",
        { status := Status.success, stale := false, data := some 6, err := none, tok := none }),
      (probesKey,
        { status := Status.success, stale := false, data := some 7, err := none, tok := none })],
    pending := [],
    subs := [probeResultsKey "job1" "7d"],
    counter := 3 }

/-! ### Association list lemmas -/

theorem lookupEntry_setAssoc_self (l : List (OpKey × CacheEntry)) (k : OpKey) (e : CacheEntry) :
    lookupEntry (setAssoc l k e) k = some e := by
  induction l with
  | nil => simp [setAssoc, lookupEntry]
  | cons kv rest ih =>
    obtain ⟨k', e'⟩ := kv
    by_cases h : k' = k
    · simp [setAssoc, h, lookupEntry]
    · simp [setAssoc, h, lookupEntry, ih]

theorem lookupEntry_setAssoc_ne (l : List (OpKey × CacheEntry)) (k k' : OpKey) (e : CacheEntry)
    (hk : k' ≠ k) : lookupEntry (setAssoc l k e) k' = lookupEntry l k' := by
  have hk' : k ≠ k' := Ne.symm hk
  induction l with
  | nil => simp [setAssoc, lookupEntry, hk']
  | cons kv rest ih =>
    obtain ⟨k'', e''⟩ := kv
    by_cases h : k'' = k
    · subst h
      simp [setAssoc, lookupEntry, hk']
    · simp [setAssoc, h, lookupEntry, ih]

theorem entryAt_beginFetch_self (s : Store) (k : OpKey) :
    (s.beginFetch k).entryAt k =
      { s.entryAt k with status := Status.loading, stale := false, tok := some s.counter } := by
  simp [Store.beginFetch, Store.entryAt, lookupEntry_setAssoc_self]

theorem entryAt_beginFetch_ne (s : Store) (k k' : OpKey) (hk : k' ≠ k) :
    (s.beginFetch k).entryAt k' = s.entryAt k' := by
  simp [Store.beginFetch, Store.entryAt, lookupEntry_setAssoc_ne _ _ _ _ hk]

theorem resolve_entries_of_ne (s : Store) (k : OpKey) (t : Nat) (o : Outcome)
    (hne : (s.entryAt k).tok ≠ some t) : (s.resolve k t o).entries = s.entries := by
  simp [Store.resolve, hne]

theorem resolve_entryAt_of_ne (s : Store) (k : OpKey) (t : Nat) (o : Outcome) (k' : OpKey)
    (hne : (s.entryAt k).tok ≠ some t) : (s.resolve k t o).entryAt k' = s.entryAt k' := by
  simp [Store.entryAt, resolve_entries_of_ne s k t o hne]

theorem resolve_entryAt_self_of_eq (s : Store) (k : OpKey) (t : Nat) (o : Outcome)
    (h : (s.entryAt k).tok = some t) :
    (s.resolve k t o).entryAt k = applyOutcome (s.entryAt k) o := by
  simp only [Store.resolve]
  rw [if_pos h]
  simp [Store.entryAt, lookupEntry_setAssoc_self]

/-! ### Claim C3 — Mutation Unit busy rejection -/

/-- C3: while a Mutation Unit is pending, a second mutate call returns a
BusyRejection, leaves the unit unchanged (its status stays pending) and
issues no new side-effecting request, so the two invocations cannot
interleave. -/
theorem C3_mutationBusy (u : MutationUnit) (h : u.mstatus = MStatus.mpending) :
    mutate u = (u, MutateResult.busyRejected, false) := by
  simp [mutate, h]

/-- C3 witness: a concrete pending unit. -/
theorem C3_mutationBusy_witness :
    mutate { mstatus := MStatus.mpending } =
      ({ mstatus := MStatus.mpending }, MutateResult.busyRejected, false) :=
  C3_mutationBusy { mstatus := MStatus.mpending } rfl

/-! ### Claim C6 — stale-while-error -/

/-- C6: when the entry holds a last successful value and the current fetch
resolves as a failure, the error field records the failure, the data field
keeps the last successful value, and the status becomes error — the error
branch never wipes the data. -/
theorem C6_staleWhileError (s : Store) (k : OpKey) (t : Nat) (f : Failure) (d : Payload)
    (ht : (s.entryAt k).tok = some t) (hd : (s.entryAt k).data = some d) :
    ((s.resolve k t (Outcome.fail f)).entryAt k).err = some f ∧
    ((s.resolve k t (Outcome.fail f)).entryAt k).data = some d ∧
    ((s.resolve k t (Outcome.fail f)).entryAt k).status = Status.error := by
  rw [resolve_entryAt_self_of_eq s k t _ ht]
  simp [applyOutcome, hd]

/-- C6 witness: the sample store, whose entry has data 5 and token 0. -/
theorem C6_staleWhileError_witness :
    ((sampleStore.resolve (probeResultsKey "job1" "7d") 0 (Outcome.fail 9)).entryAt
        (probeResultsKey "job1" "7d")).err = some 9 ∧
    ((sampleStore.resolve (probeResultsKey "job1" "7d") 0 (Outcome.fail 9)).entryAt
        (probeResultsKey "job1" "7d")).data = some 5 ∧
    ((sampleStore.resolve (probeResultsKey "job1" "7d") 0 (Outcome.fail 9)).entryAt
        (probeResultsKey "job1" "7d")).status = Status.error :=
  C6_staleWhileError sampleStore (probeResultsKey "job1" "7d") 0 9 5 rfl rfl

/-! ### Claim C8 — TrendIndicator -/

/-- C8: the TrendIndicator displays the absolute magnitude of its value
followed by a percent sign, uses the upward success style exactly when the
value is positive, and renders the edge case 0 with the downward error
style showing 0%. -/
theorem C8_trendIndicator (v : ℚ) :
    (TrendIndicator v).magnitude = |v| ∧ (TrendIndicator v).suffix = "%" ∧
    (((TrendIndicator v).icon = TrendIcon.trendingUp ∧
      (TrendIndicator v).colorClass = "text-success-500") ↔ 0 < v) ∧
    (TrendIndicator 0).icon = TrendIcon.trendingDown ∧
    (TrendIndicator 0).colorClass = "text-error-500" ∧
    (TrendIndicator 0).magnitude = 0 := by
  have h0 : ¬ (0 : ℚ) < 0 := lt_irrefl 0
  by_cases h : 0 < v
  · simp [TrendIndicator, h, h0]
  · simp [TrendIndicator, h, h0]

/-! ### Claim C10 — MaturityIndicator lookup -/

/-- C10 counterexample: the string toString is none of low, medium and
high, yet the component does not fall back to the medium configuration for
it — the bracket lookup finds the inherited truthy Object.prototype
property instead, so the claimed universal fallback is false of the code. -/
theorem C10_maturityIndicator_counterexample :
    "toString" ≠ "low" ∧ "toString" ≠ "medium" ∧ "toString" ≠ "high" ∧
    maturityConfig "toString" ≠ JsValue.config mediumConfig := by
  refine ⟨by decide, by decide, by decide, by decide⟩

/-- C10 (amended): low, medium and high map to their own configurations
(33%, 66%, 100% with their colors); any other string that is not an
inherited Object.prototype property name falls back to the medium
configuration; for an inherited property name the lookup returns that
inherited truthy value and the medium fallback does not fire. -/
theorem C10_maturityIndicator (s : String) :
    maturityConfig "low" = JsValue.config lowConfig ∧
    maturityConfig "medium" = JsValue.config mediumConfig ∧
    maturityConfig "high" = JsValue.config highConfig ∧
    lowConfig.percentage = 33 ∧ lowConfig.color = "error" ∧
    mediumConfig.percentage = 66 ∧ mediumConfig.color = "warning" ∧
    highConfig.percentage = 100 ∧ highConfig.color = "success" ∧
    (s ≠ "low" → s ≠ "medium" → s ≠ "high" → s ∉ protoProps →
      maturityConfig s = JsValue.config mediumConfig) ∧
    (s ∈ protoProps → maturityConfig s = JsValue.inherited s) := by
  refine ⟨rfl, rfl, rfl, rfl, rfl, rfl, rfl, rfl, rfl, ?_, ?_⟩
  · intro h1 h2 h3 h4
    simp [maturityConfig, maturityLookup, h1, h2, h3, h4]
  · intro hmem
    have h1 : s ≠ "low" := by
      rintro rfl
      exact absurd hmem (by decide)
    have h2 : s ≠ "medium" := by
      rintro rfl
      exact absurd hmem (by decide)
    have h3 : s ≠ "high" := by
      rintro rfl
      exact absurd hmem (by decide)
    simp [maturityConfig, maturityLookup, h1, h2, h3, hmem]

/-- C10 witness: the fallback at a concrete unrecognized level, and the
inherited lookup at the concrete prototype property valueOf. -/
theorem C10_maturityIndicator_witness :
    maturityConfig "unknown" = JsValue.config mediumConfig ∧
    maturityConfig "valueOf" = JsValue.inherited "valueOf" := by
  have h1 := C10_maturityIndicator "unknown"
  have h2 := C10_maturityIndicator "valueOf"
  exact ⟨h1.2.2.2.2.2.2.2.2.2.1 (by decide) (by decide) (by decide) (by decide),
    h2.2.2.2.2.2.2.2.2.2.2 (by decide)⟩

/-! ### Claim C1 — responses apply in request-token order -/

/-- C1: a response whose token no longer matches the entry's in-flight
token changes no entry (it is silently dropped); in particular, when two
fetches for the same key are issued back to back and the second-issued one
(token counter + 1) resolves first, the later resolution of the
first-issued fetch (token counter) is dropped and the cache keeps the
second fetch's data. -/
theorem C1_tokenOrder (s : Store) (k k' : OpKey) (t : Nat) (o : Outcome) (d1 d2 : Payload) :
    ((s.entryAt k).tok ≠ some t → (s.resolve k t o).entryAt k' = s.entryAt k') ∧
    ((((s.beginFetch k).beginFetch k).resolve k (s.counter + 1) (Outcome.ok d2)).resolve k
        s.counter (Outcome.ok d1)).entryAt k =
      (((s.beginFetch k).beginFetch k).resolve k (s.counter + 1) (Outcome.ok d2)).entryAt k ∧
    (((((s.beginFetch k).beginFetch k).resolve k (s.counter + 1) (Outcome.ok d2)).resolve k
        s.counter (Outcome.ok d1)).entryAt k).data = some d2 := by
  have hmatch : (((s.beginFetch k).beginFetch k).entryAt k).tok = some (s.counter + 1) := by
    rw [entryAt_beginFetch_self]
    simp [Store.beginFetch]
  have hres2 := resolve_entryAt_self_of_eq ((s.beginFetch k).beginFetch k) k (s.counter + 1)
    (Outcome.ok d2) hmatch
  have hdata : ((((s.beginFetch k).beginFetch k).resolve k (s.counter + 1)
      (Outcome.ok d2)).entryAt k).data = some d2 := by
    rw [hres2]
    simp [applyOutcome]
  have hne : ((((s.beginFetch k).beginFetch k).resolve k (s.counter + 1)
      (Outcome.ok d2)).entryAt k).tok ≠ some s.counter := by
    rw [hres2]
    simp [applyOutcome]
  have hdrop := resolve_entryAt_of_ne _ k s.counter (Outcome.ok d1) k hne
  exact ⟨fun h => resolve_entryAt_of_ne s k t o k' h, hdrop, by rw [hdrop, hdata]⟩

/-- C1 witness: a token mismatch on the initial store is dropped, and the
concrete out-of-order scenario ends with the second fetch's data. -/
theorem C1_tokenOrder_witness :
    (Store.init.resolve probesKey 0 (Outcome.ok 1)).entryAt probesKey =
      Store.init.entryAt probesKey ∧
    (((((Store.init.beginFetch probesKey).beginFetch probesKey).resolve probesKey
        (Store.init.counter + 1) (Outcome.ok 2)).resolve probesKey Store.init.counter
        (Outcome.ok 1)).entryAt probesKey).data = some 2 := by
  have h := C1_tokenOrder Store.init probesKey probesKey 0 (Outcome.ok 1) 1 2
  exact ⟨h.1 (by decide), h.2.2⟩

/-! ### Claim C5 — the enabled flag gates fetching -/

theorem queryStep_false (s : Store) (k : OpKey) : queryStep s k false = s := by
  simp [queryStep]

theorem queryRun_false_replicate (s : Store) (k : OpKey) (n : Nat) :
    queryRun s k (List.replicate n false) = s := by
  induction n with
  | zero => rfl
  | succ n ih => simp [List.replicate_succ, queryRun, queryStep_false, ih]

theorem queryRun_noNeed (s : Store) (k : OpKey) (m : Nat)
    (h : needsFetch (s.entryAt k) = false) :
    queryRun s k (List.replicate m true) = s := by
  induction m with
  | zero => rfl
  | succ m ih => simp [List.replicate_succ, queryRun, queryStep, h, ih]

theorem queryRun_append (s : Store) (k : OpKey) (l1 l2 : List Bool) :
    queryRun s k (l1 ++ l2) = queryRun (queryRun s k l1) k l2 := by
  induction l1 generalizing s with
  | nil => rfl
  | cons b bs ih => simp [queryRun, ih]

theorem needsFetch_beginFetch (s : Store) (k : OpKey) :
    needsFetch ((s.beginFetch k).entryAt k) = false := by
  rw [entryAt_beginFetch_self]
  simp [needsFetch]

theorem queryStep_true_initial (s : Store) (k : OpKey) (h : s.entryAt k = CacheEntry.initial) :
    queryStep s k true = s.beginFetch k := by
  simp [queryStep, h, needsFetch, CacheEntry.initial, Store.fetch]

/-- C5: a Query Unit whose enabled flag stays false triggers no fetch and
leaves the store untouched; when the flag transitions from false to true on
a fresh (idle) entry, exactly one fetch is issued — one request goes on the
wire and further renders with the flag true add nothing; and the
probe-results query with an absent (empty) jobId has a false enabled flag,
so it never issues a request. -/
theorem C5_enabledGate (s : Store) (k : OpKey) (n m : Nat) (tf : String)
    (h : s.entryAt k = CacheEntry.initial) :
    queryRun s k (List.replicate n false) = s ∧
    queryRun s k (List.replicate n false ++ List.replicate (m + 1) true) = s.beginFetch k ∧
    (s.beginFetch k).pending = s.pending ++ [{ key := k, token := s.counter }] ∧
    probeResultsEnabled "" = false ∧
    queryRun s (probeResultsKey "" tf) (List.replicate n (probeResultsEnabled "")) = s := by
  refine ⟨queryRun_false_replicate s k n, ?_, rfl, rfl, ?_⟩
  · rw [queryRun_append, queryRun_false_replicate, List.replicate_succ]
    show queryRun (queryStep s k true) k (List.replicate m true) = s.beginFetch k
    rw [queryStep_true_initial s k h]
    exact queryRun_noNeed _ k m (needsFetch_beginFetch s k)
  · have he : probeResultsEnabled "" = false := rfl
    rw [he]
    exact queryRun_false_replicate s (probeResultsKey "" tf) n

/-- C5 witness: the initial store, two disabled renders, then two enabled
renders, and the empty-jobId probe-results query. -/
theorem C5_enabledGate_witness :
    queryRun Store.init probesKey (List.replicate 2 false) = Store.init ∧
    queryRun Store.init probesKey (List.replicate 2 false ++ List.replicate 2 true) =
      Store.init.beginFetch probesKey ∧
    (Store.init.beginFetch probesKey).pending =
      Store.init.pending ++ [{ key := probesKey, token := Store.init.counter }] ∧
    probeResultsEnabled "" = false ∧
    queryRun Store.init (probeResultsKey "" "30d")
      (List.replicate 2 (probeResultsEnabled "")) = Store.init :=
  C5_enabledGate Store.init probesKey 2 1 "30d" rfl

/-! ### Claim C7 — identical keys share one slot, distinct keys do not -/

theorem lookupEntry_append_ne (l : List (OpKey × CacheEntry)) (k k' : OpKey) (e : CacheEntry)
    (hk : k' ≠ k) : lookupEntry (l ++ [(k, e)]) k' = lookupEntry l k' := by
  have hk' : k ≠ k' := Ne.symm hk
  induction l with
  | nil => simp [lookupEntry, hk']
  | cons kv rest ih =>
    obtain ⟨k'', e''⟩ := kv
    by_cases h : k'' = k'
    · simp [lookupEntry, h]
    · simp [lookupEntry, h, ih]

theorem lookupEntry_append_self (l : List (OpKey × CacheEntry)) (k : OpKey) (e : CacheEntry)
    (hl : lookupEntry l k = none) : lookupEntry (l ++ [(k, e)]) k = some e := by
  induction l with
  | nil => simp [lookupEntry]
  | cons kv rest ih =>
    obtain ⟨k'', e''⟩ := kv
    by_cases h : k'' = k
    · simp [lookupEntry, h] at hl
    · simp [lookupEntry, h] at hl ⊢
      exact ih hl

/-- C7: a second invocation with the same Operation Key resolves to the
slot the first created (ensure is idempotent and the key is then present);
an invocation touches no other key's entry; and the probe-results keys of
two invocations coincide exactly when both the jobId and the timeframe
coincide. -/
theorem C7_keyIdentity (s : Store) (k k' : OpKey) :
    (s.ensure k).ensure k = s.ensure k ∧
    (lookupEntry (s.ensure k).entries k).isSome = true ∧
    (k' ≠ k → (s.ensure k).entryAt k' = s.entryAt k') ∧
    (∀ j1 t1 j2 t2 : String,
      probeResultsKey j1 t1 = probeResultsKey j2 t2 ↔ j1 = j2 ∧ t1 = t2) := by
  refine ⟨?_, ?_, ?_, ?_⟩
  · cases hl : lookupEntry s.entries k with
    | some e => simp [Store.ensure, hl]
    | none =>
      have hsome := lookupEntry_append_self s.entries k CacheEntry.initial hl
      simp [Store.ensure, hl, hsome]
  · cases hl : lookupEntry s.entries k with
    | some e => simp [Store.ensure, hl]
    | none =>
      have hsome := lookupEntry_append_self s.entries k CacheEntry.initial hl
      simp [Store.ensure, hl, hsome]
  · intro hk
    cases hl : lookupEntry s.entries k with
    | some e => simp [Store.ensure, hl]
    | none =>
      simp [Store.ensure, hl, Store.entryAt, lookupEntry_append_ne s.entries k k' _ hk]
  · intro j1 t1 j2 t2
    simp [probeResultsKey]

/-- C7 witness: the probes key on the initial store, a distinct
probe-results key left untouched, and key equality at concrete values. -/
theorem C7_keyIdentity_witness :
    (Store.init.ensure probesKey).ensure probesKey = Store.init.ensure probesKey ∧
    (Store.init.ensure probesKey).entryAt (probeResultsKey "job1" "30d") =
      Store.init.entryAt (probeResultsKey "job1" "30d") ∧
    (probeResultsKey "job1" "30d" = probeResultsKey "job2" "30d" ↔
      ("job1" = "job2" ∧ "30d" = "30d")) := by
  have h := C7_keyIdentity Store.init probesKey (probeResultsKey "job1" "30d")
  exact ⟨h.1, h.2.2.1 (by decide), h.2.2.2 "job1" "30d" "job2" "30d"⟩

/-! ### Claim C9 — ShareOfModelChart top-ten ordering -/

theorem shareDescBefore_trans (a b c : String × ℚ) (h1 : shareDescBefore a b = true)
    (h2 : shareDescBefore b c = true) : shareDescBefore a c = true := by
  simp [shareDescBefore] at h1 h2 ⊢
  exact le_trans h2 h1

theorem shareDescBefore_total (a b : String × ℚ) :
    (shareDescBefore a b || shareDescBefore b a) = true := by
  simp [shareDescBefore]
  exact le_total b.2 a.2

/-- C9: the ShareOfModelChart renders at most ten brands, in non-increasing
order of share, and they are exactly the brands with the highest shares:
the rendered list together with the rest of the entries is a permutation of
the input, and every omitted entry's share is at most every rendered
entry's share. -/
theorem C9_shareOfModelChart (data : List (String × ℚ)) :
    (ShareOfModelChart data).length ≤ 10 ∧
    List.Sorted (fun p q : String × ℚ => q.2 ≤ p.2) (ShareOfModelChart data) ∧
    ∃ rest : List (String × ℚ),
      (ShareOfModelChart data ++ rest).Perm data ∧
        ∀ p ∈ ShareOfModelChart data, ∀ q ∈ rest, q.2 ≤ p.2 := by
  have hsorted : List.Pairwise (fun a b => shareDescBefore a b = true)
      (data.mergeSort shareDescBefore) :=
    List.sorted_mergeSort shareDescBefore_trans shareDescBefore_total data
  have hsorted' : List.Pairwise (fun p q : String × ℚ => q.2 ≤ p.2)
      (data.mergeSort shareDescBefore) := by
    refine hsorted.imp ?_
    intro a b h
    simpa [shareDescBefore] using h
  have hsplit : List.Pairwise (fun p q : String × ℚ => q.2 ≤ p.2)
      ((data.mergeSort shareDescBefore).take 10 ++ (data.mergeSort shareDescBefore).drop 10) := by
    rw [List.take_append_drop]
    exact hsorted'
  obtain ⟨-, -, hcross⟩ := List.pairwise_append.mp hsplit
  refine ⟨List.length_take_le _ _, ?_, ?_⟩
  · exact List.Pairwise.sublist (List.take_sublist _ _) hsorted'
  · refine ⟨(data.mergeSort shareDescBefore).drop 10, ?_, hcross⟩
    show ((data.mergeSort shareDescBefore).take 10 ++
      (data.mergeSort shareDescBefore).drop 10).Perm data
    rw [List.take_append_drop]
    exact List.mergeSort_perm data shareDescBefore

/-! ### Claim C4 — invalidation marks exactly the scope -/

theorem lookupEntry_staleMap (l : List (OpKey × CacheEntry)) (p k : OpKey) :
    lookupEntry (l.map fun kv => if isUnder p kv.1 then (kv.1, markStale kv.2) else kv) k =
      if isUnder p k then (lookupEntry l k).map markStale else lookupEntry l k := by
  induction l with
  | nil => cases hu : isUnder p k <;> simp [lookupEntry]
  | cons kv rest ih =>
    obtain ⟨k', e'⟩ := kv
    simp only [List.map_cons]
    by_cases hk : k' = k
    · subst hk
      by_cases hu : isUnder p k' = true
      · rw [if_pos hu, if_pos hu]
        simp [lookupEntry]
      · rw [if_neg hu, if_neg hu]
        simp [lookupEntry]
    · by_cases hu : isUnder p k' = true
      · rw [if_pos hu]
        simp [lookupEntry, hk, ih]
      · rw [if_neg hu]
        simp [lookupEntry, hk, ih]

theorem foldl_beginFetch_entryAt_ne (ks : List OpKey) (s : Store) (k : OpKey) (hk : k ∉ ks) :
    (ks.foldl Store.beginFetch s).entryAt k = s.entryAt k := by
  induction ks generalizing s with
  | nil => rfl
  | cons k' rest ih =>
    have h1 : k ≠ k' := fun h => hk (h ▸ List.mem_cons_self k' rest)
    have h2 : k ∉ rest := fun h => hk (List.mem_cons_of_mem k' h)
    rw [List.foldl_cons, ih _ h2]
    exact entryAt_beginFetch_ne s k' k h1

theorem foldl_beginFetch_entryAt_mem (ks : List OpKey) (s : Store) (k : OpKey) (hk : k ∈ ks) :
    ((ks.foldl Store.beginFetch s).entryAt k).status = Status.loading ∧
    ((ks.foldl Store.beginFetch s).entryAt k).tok.isSome = true := by
  induction ks generalizing s with
  | nil => cases hk
  | cons k' rest ih =>
    rw [List.foldl_cons]
    by_cases hmem : k ∈ rest
    · exact ih _ hmem
    · have hk' : k = k' := by
        rcases List.mem_cons.mp hk with h | h
        · exact h
        · exact absurd h hmem
      subst hk'
      rw [foldl_beginFetch_entryAt_ne rest _ k hmem, entryAt_beginFetch_self]
      exact ⟨rfl, rfl⟩

theorem pendingFor_beginFetch_ne (s : Store) (k' k : OpKey) (hk : k' ≠ k) :
    pendingFor (s.beginFetch k') k = pendingFor s k := by
  simp [pendingFor, Store.beginFetch, List.filter_append, hk]

theorem pendingFor_foldl_beginFetch (ks : List OpKey) (s : Store) (k : OpKey) (hk : k ∉ ks) :
    pendingFor (ks.foldl Store.beginFetch s) k = pendingFor s k := by
  induction ks generalizing s with
  | nil => rfl
  | cons k' rest ih =>
    have h1 : k' ≠ k := fun h => hk (h ▸ List.mem_cons_self k' rest)
    have h2 : k ∉ rest := fun h => hk (List.mem_cons_of_mem k' h)
    rw [List.foldl_cons, ih _ h2]
    exact pendingFor_beginFetch_ne s k' k h1

/-- C4: invalidating a scope P leaves every entry whose key does not start
with P completely unchanged — entry and wire requests alike; every existing
entry under P without an active subscriber is exactly stale-marked; and
every subscribed key under P is immediately refetching (loading, with an
in-flight token). -/
theorem C4_invalidateScope (s : Store) (p k : OpKey) :
    (isUnder p k = false →
      (s.invalidate p).entryAt k = s.entryAt k ∧
      pendingFor (s.invalidate p) k = pendingFor s k) ∧
    (isUnder p k = true → k ∉ s.subs →
      ∀ e, lookupEntry s.entries k = some e →
        (s.invalidate p).entryAt k = markStale e) ∧
    (isUnder p k = true → k ∈ s.subs →
      ((s.invalidate p).entryAt k).status = Status.loading ∧
      ((s.invalidate p).entryAt k).tok.isSome = true) := by
  have hinv : s.invalidate p =
      (s.subs.filter fun k => isUnder p k).foldl Store.beginFetch (s.staleUnder p) := rfl
  refine ⟨?_, ?_, ?_⟩
  · intro hu
    have hnot : k ∉ s.subs.filter fun k => isUnder p k := by
      intro hmem
      have := (List.mem_filter.mp hmem).2
      rw [hu] at this
      cases this
    rw [hinv, foldl_beginFetch_entryAt_ne _ _ k hnot, pendingFor_foldl_beginFetch _ _ k hnot]
    constructor
    · simp [Store.staleUnder, Store.entryAt, lookupEntry_staleMap, hu]
    · simp [pendingFor, Store.staleUnder]
  · intro hu hsub e he
    have hnot : k ∉ s.subs.filter fun k => isUnder p k := by
      intro hmem
      exact hsub (List.mem_filter.mp hmem).1
    rw [hinv, foldl_beginFetch_entryAt_ne _ _ k hnot]
    simp [Store.staleUnder, Store.entryAt, lookupEntry_staleMap, hu, he]
  · intro hu hsub
    have hmem : k ∈ s.subs.filter fun k => isUnder p k := List.mem_filter.mpr ⟨hsub, hu⟩
    rw [hinv]
    exact foldl_beginFetch_entryAt_mem _ _ k hmem

/-- C4 witness: invalidating the probe-results scope on a concrete store —
the probes entry and its requests untouched, the unsubscribed probe-results
entry exactly stale-marked, the subscribed one refetching. -/
theorem C4_invalidateScope_witness :
    ((scopedStore.invalidate ["probe-results"]).entryAt probesKey =
        scopedStore.entryAt probesKey ∧
      pendingFor (scopedStore.invalidate ["probe-results"]) probesKey =
        pendingFor scopedStore probesKey) ∧
    (scopedStore.invalidate ["probe-results"]).entryAt (probeResultsKey "job2" "7d") =
      markStale { status := Status.success, stale := false, data := some 6, err := none,
                  tok := none } ∧
    (((scopedStore.invalidate ["probe-results"]).entryAt
        (probeResultsKey "job1" "7d")).status = Status.loading ∧
      ((scopedStore.invalidate ["probe-results"]).entryAt
        (probeResultsKey "job1" "7d")).tok.isSome = true) := by
  have h1 := C4_invalidateScope scopedStore ["probe-results"] probesKey
  have h2 := C4_invalidateScope scopedStore ["probe-results"] (probeResultsKey "job2" "7d")
  have h3 := C4_invalidateScope scopedStore ["probe-results"] (probeResultsKey "job1" "7d")
  exact ⟨h1.1 (by decide), h2.2.1 (by decide) (by decide) _ rfl,
    h3.2.2 (by decide) (by decide)⟩

/-! ### Claim C2 — at most one in-flight request per key -/

theorem resolve_pending (s : Store) (k : OpKey) (t : Nat) (o : Outcome) :
    (s.resolve k t o).pending =
      s.pending.filter fun r => decide (¬(r.key = k ∧ r.token = t)) := by
  by_cases hc : (s.entryAt k).tok = some t <;> simp [Store.resolve, hc]

theorem resolve_counter (s : Store) (k : OpKey) (t : Nat) (o : Outcome) :
    (s.resolve k t o).counter = s.counter := by
  by_cases hc : (s.entryAt k).tok = some t <;> simp [Store.resolve, hc]

theorem resolve_entryAt_ne_key (s : Store) (k : OpKey) (t : Nat) (o : Outcome) (k' : OpKey)
    (hk : k' ≠ k) : (s.resolve k t o).entryAt k' = s.entryAt k' := by
  by_cases hc : (s.entryAt k).tok = some t
  · simp only [Store.resolve]
    rw [if_pos hc]
    simp [Store.entryAt, lookupEntry_setAssoc_ne _ _ _ _ hk]
  · exact resolve_entryAt_of_ne s k t o k' hc

theorem tokInv_init : TokInv Store.init := by
  refine ⟨?_, ?_, ?_⟩
  · intro r hr
    simp [Store.init] at hr
  · intro k t ht
    simp [Store.init, Store.entryAt, lookupEntry, CacheEntry.initial] at ht
  · simp [Store.init]

theorem tokInv_beginFetch (s : Store) (k : OpKey) (h : TokInv s) : TokInv (s.beginFetch k) := by
  obtain ⟨h1, h2, h3⟩ := h
  refine ⟨?_, ?_, ?_⟩
  · intro r hr
    have hr' : r ∈ s.pending ∨ r = { key := k, token := s.counter } := by
      simpa [Store.beginFetch] using hr
    rcases hr' with hr' | hr'
    · exact Nat.lt_succ_of_lt (h1 r hr')
    · rw [hr']
      exact Nat.lt_succ_self s.counter
  · intro k' t ht
    by_cases hk : k' = k
    · subst hk
      rw [entryAt_beginFetch_self] at ht
      simp at ht
      show t < s.counter + 1
      omega
    · rw [entryAt_beginFetch_ne s k k' hk] at ht
      show t < s.counter + 1
      exact Nat.lt_succ_of_lt (h2 k' t ht)
  · show (s.pending ++ [({ key := k, token := s.counter } : NetRequest)]).Pairwise
      fun r r' => r.token ≠ r'.token
    refine List.pairwise_append.mpr ⟨h3, ?_, ?_⟩
    · simp
    · intro a ha b hb
      simp only [List.mem_singleton] at hb
      rw [hb]
      exact Nat.ne_of_lt (h1 a ha)

theorem tokInv_fetch (s : Store) (k : OpKey) (h : TokInv s) : TokInv (s.fetch k) := by
  by_cases hc : (s.entryAt k).tok.isSome = true
  · simp only [Store.fetch]
    rw [if_pos hc]
    exact h
  · simp only [Store.fetch]
    rw [if_neg hc]
    exact tokInv_beginFetch s k h

theorem tokInv_queryStep (s : Store) (k : OpKey) (en : Bool) (h : TokInv s) :
    TokInv (queryStep s k en) := by
  by_cases hc : (en && needsFetch (s.entryAt k)) = true
  · simp only [queryStep]
    rw [if_pos hc]
    exact tokInv_fetch s k h
  · simp only [queryStep]
    rw [if_neg hc]
    exact h

theorem tok_staleMap (s : Store) (p k : OpKey) :
    ((s.staleUnder p).entryAt k).tok = (s.entryAt k).tok := by
  simp only [Store.staleUnder, Store.entryAt, lookupEntry_staleMap]
  by_cases hu : isUnder p k = true
  · rw [if_pos hu]
    cases lookupEntry s.entries k <;> simp [markStale, CacheEntry.initial]
  · rw [if_neg hu]

theorem tokInv_staleMap (s : Store) (p : OpKey) (h : TokInv s) :
    TokInv (s.staleUnder p) := by
  obtain ⟨h1, h2, h3⟩ := h
  exact ⟨h1, fun k t ht => h2 k t (by rwa [tok_staleMap] at ht), h3⟩

theorem tokInv_foldl_beginFetch (ks : List OpKey) (s : Store) (h : TokInv s) :
    TokInv (ks.foldl Store.beginFetch s) := by
  induction ks generalizing s with
  | nil => exact h
  | cons k rest ih =>
    rw [List.foldl_cons]
    exact ih _ (tokInv_beginFetch s k h)

theorem tokInv_invalidate (s : Store) (p : OpKey) (h : TokInv s) : TokInv (s.invalidate p) :=
  tokInv_foldl_beginFetch _ _ (tokInv_staleMap s p h)

theorem tokInv_resolve (s : Store) (k : OpKey) (t : Nat) (o : Outcome) (h : TokInv s) :
    TokInv (s.resolve k t o) := by
  obtain ⟨h1, h2, h3⟩ := h
  refine ⟨?_, ?_, ?_⟩
  · intro r hr
    rw [resolve_pending] at hr
    rw [resolve_counter]
    exact h1 r (List.mem_of_mem_filter hr)
  · intro k' t' ht
    rw [resolve_counter]
    by_cases hk : k' = k
    · subst hk
      by_cases hc : (s.entryAt k').tok = some t
      · rw [resolve_entryAt_self_of_eq s k' t o hc] at ht
        cases o <;> simp [applyOutcome] at ht
      · rw [resolve_entryAt_of_ne s k' t o k' hc] at ht
        exact h2 k' t' ht
    · rw [resolve_entryAt_ne_key s k t o k' hk] at ht
      exact h2 k' t' ht
  · rw [resolve_pending]
    exact List.Pairwise.sublist (List.filter_sublist _) h3

theorem tokInv_step (s : Store) (e : Event) (h : TokInv s) : TokInv (step s e) := by
  cases e with
  | query k en => exact tokInv_queryStep s k en h
  | subscribe k =>
    exact tokInv_queryStep { s with subs := s.subs ++ [k] } k true ⟨h.1, h.2.1, h.2.2⟩
  | resolve k t o => exact tokInv_resolve s k t o h
  | invalidate p => exact tokInv_invalidate s p h

theorem tokInv_run (evs : List Event) (s : Store) (h : TokInv s) : TokInv (run s evs) := by
  induction evs generalizing s with
  | nil => exact h
  | cons e es ih => exact ih _ (tokInv_step s e h)

theorem filter_token_length_le_one (l : List NetRequest) (t : Nat)
    (hpw : l.Pairwise fun r r' => r.token ≠ r'.token) (p : NetRequest → Bool)
    (hp : ∀ r ∈ l, p r = true → r.token = t) : (l.filter p).length ≤ 1 := by
  induction l with
  | nil => simp
  | cons a rest ih =>
    obtain ⟨ha, hrest⟩ := List.pairwise_cons.mp hpw
    by_cases hpa : p a = true
    · have hempty : rest.filter p = [] := by
        refine List.eq_nil_iff_forall_not_mem.mpr fun b hb => ?_
        obtain ⟨hbmem, hpb⟩ := List.mem_filter.mp hb
        refine ha b hbmem ?_
        rw [hp a (List.mem_cons_self a rest) hpa, hp b (List.mem_cons_of_mem a hbmem) hpb]
      simp [List.filter_cons, hpa, hempty]
    · rw [List.filter_cons, if_neg hpa]
      exact ih hrest fun r hr hpr => hp r (List.mem_cons_of_mem a hr) hpr

theorem liveFor_length_le_one (s : Store) (k : OpKey) (h : TokInv s) :
    (liveFor s k).length ≤ 1 := by
  obtain ⟨h1, h2, h3⟩ := h
  cases hc : (s.entryAt k).tok with
  | none => simp [liveFor, hc]
  | some t =>
    show (s.pending.filter fun r =>
      decide (r.key = k ∧ (s.entryAt k).tok = some r.token)).length ≤ 1
    refine filter_token_length_le_one s.pending t h3 _ ?_
    intro r hrm hpr
    simp [hc] at hpr
    exact hpr.2.symm

theorem liveInv_init : LiveInv Store.init := by
  refine ⟨tokInv_init, ?_⟩
  intro r hr
  simp [Store.init] at hr

theorem liveInv_beginFetch_of_none (s : Store) (k : OpKey) (h : LiveInv s)
    (hnone : (s.entryAt k).tok = none) : LiveInv (s.beginFetch k) := by
  obtain ⟨htok, hlive⟩ := h
  refine ⟨tokInv_beginFetch s k htok, ?_⟩
  intro r hr
  have hr' : r ∈ s.pending ∨ r = { key := k, token := s.counter } := by
    simpa [Store.beginFetch] using hr
  rcases hr' with hr' | hr'
  · have hkey : r.key ≠ k := by
      intro hkk
      have hx := hlive r hr'
      rw [hkk, hnone] at hx
      cases hx
    rw [entryAt_beginFetch_ne s k r.key hkey]
    exact hlive r hr'
  · rw [hr']
    simp [entryAt_beginFetch_self]

theorem liveInv_fetch (s : Store) (k : OpKey) (h : LiveInv s) : LiveInv (s.fetch k) := by
  cases hc : (s.entryAt k).tok with
  | some t =>
    simp only [Store.fetch]
    rw [if_pos (by simp [hc])]
    exact h
  | none =>
    simp only [Store.fetch]
    rw [if_neg (by simp [hc])]
    exact liveInv_beginFetch_of_none s k h hc

theorem liveInv_queryStep (s : Store) (k : OpKey) (en : Bool) (h : LiveInv s) :
    LiveInv (queryStep s k en) := by
  by_cases hc : (en && needsFetch (s.entryAt k)) = true
  · simp only [queryStep]
    rw [if_pos hc]
    exact liveInv_fetch s k h
  · simp only [queryStep]
    rw [if_neg hc]
    exact h

theorem liveInv_resolve (s : Store) (k : OpKey) (t : Nat) (o : Outcome) (h : LiveInv s) :
    LiveInv (s.resolve k t o) := by
  obtain ⟨htok, hlive⟩ := h
  refine ⟨tokInv_resolve s k t o htok, ?_⟩
  intro r hr
  rw [resolve_pending] at hr
  obtain ⟨hrmem, hrp⟩ := List.mem_filter.mp hr
  have hnot : ¬r.key = k ∨ ¬r.token = t := by simpa using hrp
  by_cases hk : r.key = k
  · have htne : r.token ≠ t := by
      rcases hnot with hx | hx
      · exact absurd hk hx
      · exact hx
    have hlv := hlive r hrmem
    by_cases hc : (s.entryAt k).tok = some t
    · rw [hk] at hlv
      rw [hc] at hlv
      exact absurd (Option.some.inj hlv).symm htne
    · rw [hk, resolve_entryAt_of_ne s k t o k hc]
      rw [hk] at hlv
      exact hlv
  · rw [resolve_entryAt_ne_key s k t o r.key hk]
    exact hlive r hrmem

theorem liveInv_runNI (evs : List Event) (s : Store) (h : LiveInv s)
    (hni : noInvalidate evs = true) : LiveInv (run s evs) := by
  induction evs generalizing s with
  | nil => exact h
  | cons e es ih =>
    cases e with
    | query k en => exact ih _ (liveInv_queryStep s k en h) hni
    | subscribe k =>
      exact ih _ (liveInv_queryStep { s with subs := s.subs ++ [k] } k true ⟨h.1, h.2⟩) hni
    | resolve k t o => exact ih _ (liveInv_resolve s k t o h) hni
    | invalidate p => exact Bool.noConfusion hni

theorem pendingFor_length_le_one (s : Store) (k : OpKey) (h : LiveInv s) :
    (pendingFor s k).length ≤ 1 := by
  obtain ⟨⟨h1, h2, h3⟩, hlive⟩ := h
  cases hc : (s.entryAt k).tok with
  | none =>
    have hempty : pendingFor s k = [] := by
      refine List.eq_nil_iff_forall_not_mem.mpr fun r hr => ?_
      obtain ⟨hrm, hrp⟩ := List.mem_filter.mp hr
      have hk : r.key = k := by simpa using hrp
      have hx := hlive r hrm
      rw [hk, hc] at hx
      cases hx
    simp [hempty]
  | some t =>
    show (s.pending.filter fun r => decide (r.key = k)).length ≤ 1
    refine filter_token_length_le_one s.pending t h3 _ ?_
    intro r hrm hrp
    have hk : r.key = k := by simpa using hrp
    have hx := hlive r hrm
    rw [hk, hc] at hx
    exact (Option.some.inj hx).symm

/-- C2: at every instant of every trace from the initial store, at most one
request per Operation Key is current — in flight under the entry's recorded
token; in traces without invalidation (pure gets, subscriptions and
responses) at most one request per key is on the wire at all; and a fetch
for a key whose entry already records an in-flight request leaves the store
unchanged, issuing no second network call (request de-duplication). -/
theorem C2_singleFlight (evs : List Event) (k : OpKey) :
    (liveFor (run Store.init evs) k).length ≤ 1 ∧
    (noInvalidate evs = true → (pendingFor (run Store.init evs) k).length ≤ 1) ∧
    (∀ s : Store, (s.entryAt k).tok.isSome = true → s.fetch k = s) := by
  refine ⟨liveFor_length_le_one _ k (tokInv_run evs Store.init tokInv_init),
    fun hni => pendingFor_length_le_one _ k (liveInv_runNI evs Store.init liveInv_init hni),
    fun s hs => ?_⟩
  simp only [Store.fetch]
  rw [if_pos hs]

/-- C2 witness: a concrete trace of two probes-query renders, and the
sample store whose probe-results entry has an in-flight request. -/
theorem C2_singleFlight_witness :
    (liveFor (run Store.init [Event.query probesKey true, Event.query probesKey true])
      probesKey).length ≤ 1 ∧
    (pendingFor (run Store.init [Event.query probesKey true, Event.query probesKey true])
      probesKey).length ≤ 1 ∧
    sampleStore.fetch (probeResultsKey "job1" "7d") = sampleStore := by
  have h := C2_singleFlight [Event.query probesKey true, Event.query probesKey true] probesKey
  exact ⟨h.1, h.2.1 rfl,
    (C2_singleFlight [] (probeResultsKey "job1" "7d")).2.2 sampleStore rfl⟩

end ZhiTou
